import Mathlib

/-!
Verification of the note search/cache path of the quick-notes mini-SaaS backend.

The definitions below are a shallow embedding of
`src/backend/src/notes/notes.service.ts` (class `NotesService`), its DTOs
(`create-note.dto.ts`, `update-note.dto.ts`, `query-notes.dto.ts`) and the
controller-level validation they declare.  The relational store (Prisma) is
embedded as a list of notes in insertion order; `findMany`/`count`/`update`/
`delete` become pure list operations.  The cache adapter (`cache.service.ts`
is not among the sources; only its module and its call sites are) is modelled
from the spec where indicated.  Machine integers are modelled as `Nat`
(validation rejects non-positive pages/limits, and JS numbers are exact at
these magnitudes).
-/

namespace QuickNotes

/-! ### Character/string helpers

Embedding of Prisma's `contains` with `mode: 'insensitive'` (an ILIKE-style
case-insensitive substring match, per the spec's external-collaborator
assumption) and of a lexicographic order on strings used by the modelled
cache-key derivation. -/

/-- Lowercase every character of a character list (`Char.toLower` is the
core basic-latin lowering, matching JS/SQL lowercase folding for ASCII). -/
def lowerChars (cs : List Char) : List Char := cs.map Char.toLower

/-- Check whether `needle` occurs at the very start of `hay`. -/
def leadsWith : List Char → List Char → Bool
  | [], _ => true
  | _ :: _, [] => false
  | a :: as, b :: bs => a == b && leadsWith as bs

/-- Check whether `needle` occurs contiguously anywhere inside `hay`. -/
def hasSub (needle : List Char) : List Char → Bool
  | [] => leadsWith needle []
  | b :: bs => leadsWith needle (b :: bs) || hasSub needle bs

/-- Case-insensitive substring test: embedding of
`{ contains: term, mode: 'insensitive' }` applied to a text column. -/
def icontains (hay needle : String) : Bool :=
  hasSub (lowerChars needle.data) (lowerChars hay.data)

/-- Lexicographic comparison of character lists by code point, used to give
tags a canonical order in the modelled cache key. -/
def charListLe : List Char → List Char → Bool
  | [], _ => true
  | _ :: _, [] => false
  | a :: as, b :: bs =>
    if a.toNat < b.toNat then true
    else if b.toNat < a.toNat then false
    else charListLe as bs

/-- Lexicographic order on strings (total, transitive, antisymmetric; proved
below). -/
def strLe (s t : String) : Bool := charListLe s.data t.data

/-- Insert a tag into a `strLe`-sorted list, keeping it sorted. -/
def insertTag (t : String) : List String → List String
  | [] => [t]
  | u :: us => if strLe t u then t :: u :: us else u :: insertTag t us

/-- Insertion sort of a tag list by `strLe`. -/
def sortTags : List String → List String
  | [] => []
  | t :: ts => insertTag t (sortTags ts)

/-- Canonical form of a tag list: deduplicated, then sorted. -/
def sortDedupTags (ts : List String) : List String := sortTags ts.dedup

/-! ### Data model -/

/-- Embedding of the Prisma `Note` row: id, owning user id, title, content,
tags (string array column), and the two timestamps.  `schema.prisma` is not
among the sources; the timestamp discipline is modelled from the spec
("updatedAt changes on every mutation", §3).  Timestamps are `Nat`. -/
structure Note where
  id : String
  userId : String
  title : String
  content : String
  tags : List String
  createdAt : Nat
  updatedAt : Nat
deriving DecidableEq, Repr

/-- Embedding of `CreateNoteDto` (`create-note.dto.ts`): `title` and
`content` are required strings each carrying `@IsNotEmpty()`; `tags` is an
optional string array. -/
structure CreateNoteDto where
  title : String
  content : String
  tags : Option (List String)
deriving DecidableEq, Repr

/-- Embedding of `UpdateNoteDto` (`update-note.dto.ts`): every field is
optional; absent fields are left untouched by the update. -/
structure UpdateNoteDto where
  title : Option String
  content : Option String
  tags : Option (List String)
deriving DecidableEq, Repr

/-- Embedding of `QueryNotesDto` (`query-notes.dto.ts`): optional search
term, optional tag filter, optional page and limit (class-validator declares
`@IsInt() @Min(1)` on both `page` and `limit`; there is no upper bound).
`page`/`limit` are `Nat` here; the `@Min(1)` validation is
`validQueryNotes` below. -/
structure QueryNotesDto where
  search : Option String
  tags : Option (List String)
  page : Option Nat
  limit : Option Nat
deriving DecidableEq, Repr

/-- Embedding of the `PaginatedNotes` result interface of
`notes.service.ts`. -/
structure PaginatedNotes where
  notes : List Note
  total : Nat
  page : Nat
  limit : Nat
  totalPages : Nat
deriving DecidableEq, Repr

/-- Typed failures of the notes endpoints: `NotFoundException`,
`ForbiddenException` (both thrown in `notes.service.ts`) and the
class-validator rejection surfaced by the validation pipe. -/
inductive NotesError where
  | notFound
  | forbidden
  | validation
deriving DecidableEq, Repr

/-- Modelled from the spec: `cache.service.ts` is not among the sources, so
the key produced by `generateNotesSearchKey` is modelled per §4.2 step 2 as
a deterministic derivation from the user id, the normalized term (empty
string if absent), the normalized sorted tag list, the page and the page
size.  The spec's "string key" with a separator-joined tag list is modelled
as a structured key (the spec demands the derivation be injective up to
overwhelming probability; the structured key makes it exactly injective). -/
structure SearchKey where
  userId : String
  term : String
  tags : List String
  page : Nat
  limit : Nat
deriving DecidableEq, Repr

/-- Combined state of the two external collaborators: the note store (rows
in insertion order) and the key-value cache. -/
structure AppState where
  store : List Note
  cache : List (SearchKey × PaginatedNotes)
deriving DecidableEq, Repr

/-! ### Cache adapter

The adapter itself (`cache.service.ts`) is not among the sources; `get`,
`set` and `invalidateUserNotesCache` are modelled from spec §4.1/§4.2.  The
300-second TTL is not modelled: every claim below concerns calls with no
intervening expiry. -/

/-- Modelled from the spec: `get(key)` returns the stored value or absent.
The cache is an association list, newest entry first. -/
def cacheGet (c : List (SearchKey × PaginatedNotes)) (k : SearchKey) :
    Option PaginatedNotes :=
  match c with
  | [] => none
  | (k', v) :: rest => if k' = k then some v else cacheGet rest k

/-- Modelled from the spec: `set(key, value, ttl)` stores the value under
the key (TTL not modelled).  Prepending plus first-match lookup is
observationally the overwrite semantics of the real store. -/
def cacheSet (c : List (SearchKey × PaginatedNotes)) (k : SearchKey)
    (v : PaginatedNotes) : List (SearchKey × PaginatedNotes) :=
  (k, v) :: c

/-- Modelled from the spec: `generateNotesSearchKey(userId, search, tags,
page, limit)` derives the cache key from the normalized inputs (§4.2 step 2:
term defaulted to the empty string, tag list deduplicated and sorted). -/
def generateNotesSearchKey (userId : String) (search : Option String)
    (tags : Option (List String)) (page limit : Nat) : SearchKey :=
  { userId := userId
    term := search.getD ""
    tags := sortDedupTags (tags.getD [])
    page := page
    limit := limit }

/-- Modelled from the spec: `invalidateUserNotesCache(userId)` deletes every
cache entry whose key was derived for that user (§4.2: "pattern =
user-scoped prefix covering every derived search key for that user"). -/
def invalidateUserNotesCache (userId : String)
    (c : List (SearchKey × PaginatedNotes)) :
    List (SearchKey × PaginatedNotes) :=
  c.filter fun kv => decide (kv.1.userId ≠ userId)

/-! ### NotesService

Embedding of `notes.service.ts`.  Each operation takes the `AppState` and
returns its result together with the next state.  `create` and `update`
additionally take the fresh id (Prisma generates it) and the current time
`now`; per the spec's data model, `updatedAt` changes on every mutation. -/

/-- Term conjunct of the `where` object built in `findAll`: `if (search)`
(JS-falsy, so an absent or empty term imposes no condition) adds an `OR` of
case-insensitive `contains` on title and content. -/
def termCond (term : Option String) (n : Note) : Bool :=
  match term with
  | none => true
  | some t =>
    if t = "" then true
    else icontains n.title t || icontains n.content t

/-- Tag conjunct of the `where` object: `if (tags && tags.length > 0)` adds
`hasEvery: tags`. -/
def tagCond (tagFilter : Option (List String)) (n : Note) : Bool :=
  match tagFilter with
  | none => true
  | some ts =>
    if ts.isEmpty then true
    else ts.all fun t => decide (t ∈ n.tags)

/-- Term conjunct (`termCond`) and tag conjunct (`tagCond`) and ownership,
conjoined as in the `where` object of `findAll`. -/
def noteMatchesWhere (userId : String) (term : Option String)
    (tagFilter : Option (List String)) (n : Note) : Bool :=
  decide (n.userId = userId) && termCond term n && tagCond tagFilter n

/-- Insert a note into a list sorted by `updatedAt` descending, before the
first element whose `updatedAt` is not larger.  Equal keys keep their
relative order (the query `orderBy: { updatedAt: 'desc' }` specifies no
tie-break; ties are resolved by store order in this embedding). -/
def insertNoteDesc (n : Note) : List Note → List Note
  | [] => [n]
  | m :: ms =>
    if m.updatedAt ≤ n.updatedAt then n :: m :: ms
    else m :: insertNoteDesc n ms

/-- Stable sort by `updatedAt` descending: embedding of
`orderBy: { updatedAt: 'desc' }`. -/
def sortNotesDesc : List Note → List Note
  | [] => []
  | n :: ns => insertNoteDesc n (sortNotesDesc ns)

/-- Embedding of the cache-miss branch of `findAll`: filter the store by the
`where` object, count the matches (`prisma.note.count`), order by
`updatedAt` descending, apply `skip = (page - 1) * limit` and `take =
limit`, and compute `totalPages = Math.ceil(total / limit)` (exact ceiling
division; `limit ≥ 1` after validation, and JS numbers are exact here). -/
def computeSearch (userId : String) (q : QueryNotesDto) (store : List Note) :
    PaginatedNotes :=
  let page := q.page.getD 1
  let limit := q.limit.getD 10
  let skip := (page - 1) * limit
  let matching := store.filter (noteMatchesWhere userId q.search q.tags)
  let total := matching.length
  { notes := ((sortNotesDesc matching).drop skip).take limit
    total := total
    page := page
    limit := limit
    totalPages := (total + limit - 1) / limit }

/-- Cache key used by `findAll` for a request: the destructuring
`const { search, tags, page = 1, limit = 10 } = queryDto` supplies the
defaults before `generateNotesSearchKey` is called. -/
def searchKeyOf (userId : String) (q : QueryNotesDto) : SearchKey :=
  generateNotesSearchKey userId q.search q.tags (q.page.getD 1)
    (q.limit.getD 10)

/-- Embedding of `NotesService.findAll`: derive the key, return the cached
page verbatim on a hit, otherwise compute the page from the store and cache
it. -/
def findAll (userId : String) (q : QueryNotesDto) (s : AppState) :
    PaginatedNotes × AppState :=
  let key := searchKeyOf userId q
  match cacheGet s.cache key with
  | some cached => (cached, s)
  | none =>
    let result := computeSearch userId q s.store
    (result, { store := s.store, cache := cacheSet s.cache key result })

/-- Embedding of `prisma.note.findUnique({ where: { id } })`: first store row
with the given id. -/
def findNote (id : String) : List Note → Option Note
  | [] => none
  | n :: ns => if n.id = id then some n else findNote id ns

/-- Embedding of `NotesService.findOne`: unknown id throws
`NotFoundException`; a note owned by a different user throws
`ForbiddenException`; otherwise the note is returned. -/
def findOne (id userId : String) (s : AppState) : Except NotesError Note :=
  match findNote id s.store with
  | none => .error .notFound
  | some n => if n.userId = userId then .ok n else .error .forbidden

/-- Embedding of the class-validator checks on `CreateNoteDto`: both `title`
and `content` carry `@IsNotEmpty()`. -/
def validateCreateNote (d : CreateNoteDto) : Bool :=
  decide (d.title ≠ "") && decide (d.content ≠ "")

/-- Embedding of `NotesService.create` (after validation): insert the new
row (`tags: tags || []`; in JS an empty array is truthy, so only an absent
`tags` falls back to `[]`), then invalidate the user's cached searches. -/
def create (userId : String) (d : CreateNoteDto) (newId : String) (now : Nat)
    (s : AppState) : Note × AppState :=
  let note : Note :=
    { id := newId
      userId := userId
      title := d.title
      content := d.content
      tags := d.tags.getD []
      createdAt := now
      updatedAt := now }
  (note,
    { store := s.store ++ [note]
      cache := invalidateUserNotesCache userId s.cache })

/-- Embedding of the create endpoint: the validation pipe rejects a
malformed body before `NotesService.create` runs. -/
def createEndpoint (userId : String) (d : CreateNoteDto) (newId : String)
    (now : Nat) (s : AppState) : Except NotesError Note × AppState :=
  if validateCreateNote d then
    let (n, s') := create userId d newId now s
    (.ok n, s')
  else (.error .validation, s)

/-- Embedding of `prisma.note.update({ where: { id }, data: updateNoteDto })`
applied to one row: fields absent from the payload are untouched; Prisma's
`@updatedAt` stamps the row (spec §3: "updatedAt changes on every
mutation"). -/
def applyUpdate (n : Note) (d : UpdateNoteDto) (now : Nat) : Note :=
  { n with
    title := d.title.getD n.title
    content := d.content.getD n.content
    tags := d.tags.getD n.tags
    updatedAt := now }

/-- Embedding of `NotesService.update`: check existence and ownership via
`findOne` (propagating its failure, with the state untouched), then update
the row and invalidate the user's cached searches. -/
def update (id userId : String) (d : UpdateNoteDto) (now : Nat)
    (s : AppState) : Except NotesError Note × AppState :=
  match findOne id userId s with
  | .error e => (.error e, s)
  | .ok n =>
    (.ok (applyUpdate n d now),
      { store := s.store.map fun m =>
          if m.id = id then applyUpdate m d now else m
        cache := invalidateUserNotesCache userId s.cache })

/-- Embedding of `NotesService.remove`: check existence and ownership via
`findOne` (propagating its failure, with the state untouched), then delete
the row and invalidate the user's cached searches. -/
def remove (id userId : String) (s : AppState) :
    Except NotesError Unit × AppState :=
  match findOne id userId s with
  | .error e => (.error e, s)
  | .ok _ =>
    (.ok (),
      { store := s.store.filter fun n => decide (n.id ≠ id)
        cache := invalidateUserNotesCache userId s.cache })

/-- Embedding of the class-validator checks on `QueryNotesDto`: `@IsInt()
@Min(1)` on `page` and on `limit` (no upper bound is declared). -/
def validQueryNotes (q : QueryNotesDto) : Bool :=
  decide (1 ≤ q.page.getD 1) && decide (1 ≤ q.limit.getD 1)

/-- Spec-side matching predicate, written from the spec's words (§4.2 step
4): notes owned by `userId` where (term absent OR term is a case-insensitive
substring of title OR content) AND (tag filter absent OR the note's tag set
contains every requested tag).  To be compared with `noteMatchesWhere`,
which embeds the source's `where` object. -/
def specNoteMatches (userId : String) (term : Option String)
    (tagFilter : Option (List String)) (n : Note) : Prop :=
  n.userId = userId
    ∧ (term = none
        ∨ ∃ t, term = some t
            ∧ (icontains n.title t = true ∨ icontains n.content t = true))
    ∧ (tagFilter = none
        ∨ ∃ ts, tagFilter = some ts ∧ ∀ x ∈ ts, x ∈ n.tags)

/-! ### Concrete fixtures used by witnesses and counterexamples -/

/-- Fixture: a note of user `u1` tagged `{work}`. -/
def noteWork : Note :=
  { id := "n1", userId := "u1", title := "Meeting", content := "prepare agenda"
    tags := ["work"], createdAt := 0, updatedAt := 1 }

/-- Fixture: a note of user `u1` tagged `{work, urgent, extra}`. -/
def noteWUE : Note :=
  { id := "n2", userId := "u1", title := "Deadline", content := "ship it"
    tags := ["work", "urgent", "extra"], createdAt := 0, updatedAt := 2 }

/-- Fixture: a note of user `u2`. -/
def noteOther : Note :=
  { id := "n3", userId := "u2", title := "Other", content := "other text"
    tags := [], createdAt := 0, updatedAt := 3 }

/-- Fixture: id "b", stored first, `updatedAt = 5`. -/
def tieNoteB : Note :=
  { id := "b", userId := "u1", title := "t", content := "c"
    tags := [], createdAt := 0, updatedAt := 5 }

/-- Fixture: id "a", stored second, `updatedAt = 5` as well. -/
def tieNoteA : Note :=
  { id := "a", userId := "u1", title := "t", content := "c"
    tags := [], createdAt := 0, updatedAt := 5 }

/-- Fixture: 101 notes of user `u1` with distinct `updatedAt`. -/
def wideStore : List Note :=
  (List.range 101).map fun i =>
    { id := "", userId := "u1", title := "t", content := "c"
      tags := [], createdAt := 0, updatedAt := i }

/-- Fixture: 25 notes of user `u1` with distinct `updatedAt`. -/
def store25 : List Note :=
  (List.range 25).map fun i =>
    { id := "", userId := "u1", title := "t", content := "c"
      tags := [], createdAt := 0, updatedAt := i }

/-- Fixture: the query with every field absent. -/
def emptyQuery : QueryNotesDto := ⟨none, none, none, none⟩

/-- Fixture: a stale cached page (predates a mutation). -/
def stalePage : PaginatedNotes :=
  { notes := [], total := 99, page := 1, limit := 10, totalPages := 10 }

/-! ### Helper lemmas: cache behaviour -/

/-- Reading back the key just written returns the written value. -/
theorem cacheGet_set_self (c : List (SearchKey × PaginatedNotes))
    (k : SearchKey) (v : PaginatedNotes) : cacheGet (cacheSet c k v) k = some v := by
  simp [cacheGet, cacheSet]

/-- After invalidating user `u`, no key derived for `u` is present. -/
theorem cacheGet_invalidate {u : String} {k : SearchKey} (hk : k.userId = u) :
    ∀ c, cacheGet (invalidateUserNotesCache u c) k = none := by
  intro c
  induction c with
  | nil => rfl
  | cons kv rest ih =>
    by_cases h : kv.1.userId = u
    · simpa [invalidateUserNotesCache, List.filter_cons, h] using ih
    · have hne : kv.1 ≠ k := fun he => h (by rw [he, hk])
      simpa [invalidateUserNotesCache, List.filter_cons, h, cacheGet, hne]
        using ih

/-! ### Helper lemmas: the lexicographic tag order -/

/-- Characters with equal code points are equal. -/
theorem charToNat_inj {a b : Char} (h : a.toNat = b.toNat) : a = b :=
  Char.eq_of_val_eq (UInt32.toNat.inj h)

/-- Unfolding characterisation of `charListLe` on two cons cells. -/
theorem charListLe_cons_iff {a b : Char} {as bs : List Char} :
    charListLe (a :: as) (b :: bs) = true ↔
      a.toNat < b.toNat ∨ (a.toNat = b.toNat ∧ charListLe as bs = true) := by
  by_cases h1 : a.toNat < b.toNat
  · simp [charListLe, h1]
  · by_cases h2 : b.toNat < a.toNat
    · simp only [charListLe, if_neg h1, if_pos h2]
      constructor
      · intro h; cases h
      · rintro (h | ⟨h, -⟩) <;> omega
    · have he : a.toNat = b.toNat := by omega
      simp [charListLe, if_neg h1, if_neg h2, he]

/-- Totality of `charListLe`. -/
theorem charListLe_total : ∀ as bs : List Char,
    charListLe as bs = true ∨ charListLe bs as = true
  | [], _ => Or.inl rfl
  | _ :: _, [] => Or.inr rfl
  | a :: as, b :: bs => by
    rcases Nat.lt_trichotomy a.toNat b.toNat with h | h | h
    · exact Or.inl (charListLe_cons_iff.mpr (Or.inl h))
    · rcases charListLe_total as bs with ih | ih
      · exact Or.inl (charListLe_cons_iff.mpr (Or.inr ⟨h, ih⟩))
      · exact Or.inr (charListLe_cons_iff.mpr (Or.inr ⟨h.symm, ih⟩))
    · exact Or.inr (charListLe_cons_iff.mpr (Or.inl h))

/-- Transitivity of `charListLe`. -/
theorem charListLe_trans : ∀ as bs cs : List Char, charListLe as bs = true →
    charListLe bs cs = true → charListLe as cs = true
  | [], _, _ => fun _ _ => rfl
  | _ :: _, [], _ => fun h _ => by simp [charListLe] at h
  | _ :: _, _ :: _, [] => fun _ h => by simp [charListLe] at h
  | a :: as, b :: bs, c :: cs => fun h1 h2 => by
    rw [charListLe_cons_iff] at h1 h2 ⊢
    rcases h1 with h1 | ⟨h1e, h1r⟩
    · rcases h2 with h2 | ⟨h2e, -⟩
      · exact Or.inl (Nat.lt_trans h1 h2)
      · exact Or.inl (by omega)
    · rcases h2 with h2 | ⟨h2e, h2r⟩
      · exact Or.inl (by omega)
      · exact Or.inr ⟨by omega, charListLe_trans as bs cs h1r h2r⟩

/-- Antisymmetry of `charListLe`. -/
theorem charListLe_antisymm : ∀ as bs : List Char, charListLe as bs = true →
    charListLe bs as = true → as = bs
  | [], [], _, _ => rfl
  | [], _ :: _, _, h2 => by simp [charListLe] at h2
  | _ :: _, [], h1, _ => by simp [charListLe] at h1
  | a :: as, b :: bs, h1, h2 => by
    rw [charListLe_cons_iff] at h1 h2
    rcases h1 with h1 | ⟨h1e, h1r⟩
    · rcases h2 with h2 | ⟨h2e, -⟩ <;> omega
    · rcases h2 with h2 | ⟨-, h2r⟩
      · omega
      · have hab : a = b := charToNat_inj h1e
        rw [hab, charListLe_antisymm as bs h1r h2r]

/-- Totality of `strLe`. -/
theorem strLe_total (s t : String) : strLe s t = true ∨ strLe t s = true :=
  charListLe_total s.data t.data

/-- Transitivity of `strLe`. -/
theorem strLe_trans {s t u : String} (h1 : strLe s t = true)
    (h2 : strLe t u = true) : strLe s u = true :=
  charListLe_trans _ _ _ h1 h2

/-- Antisymmetry of `strLe`. -/
theorem strLe_antisymm {s t : String} (h1 : strLe s t = true)
    (h2 : strLe t s = true) : s = t :=
  String.toList_inj.mp (charListLe_antisymm s.data t.data h1 h2)

/-- Membership in `insertTag`. -/
theorem mem_insertTag {x t : String} : ∀ {l : List String},
    x ∈ insertTag t l ↔ x = t ∨ x ∈ l := by
  intro l
  induction l with
  | nil => simp [insertTag]
  | cons u us ih =>
    by_cases h : strLe t u
    · simp [insertTag, h]
    · simp only [insertTag, if_neg h, List.mem_cons, ih]
      tauto

/-- Inserting a tag is a permutation of consing it. -/
theorem insertTag_perm (t : String) : ∀ l : List String,
    List.Perm (insertTag t l) (t :: l)
  | [] => List.Perm.refl _
  | u :: us => by
    by_cases h : strLe t u
    · simp [insertTag, h]
    · simp only [insertTag, if_neg h]
      exact ((insertTag_perm t us).cons u).trans (List.Perm.swap t u us)

/-- Sorting tags permutes them. -/
theorem sortTags_perm : ∀ l : List String, List.Perm (sortTags l) l
  | [] => List.Perm.refl _
  | t :: ts => (insertTag_perm t (sortTags ts)).trans ((sortTags_perm ts).cons t)

/-- Inserting into a `strLe`-sorted list keeps it sorted. -/
theorem sorted_insertTag {t : String} : ∀ {l : List String},
    List.Sorted (fun a b => strLe a b = true) l →
    List.Sorted (fun a b => strLe a b = true) (insertTag t l) := by
  intro l
  induction l with
  | nil => intro _; simp [insertTag]
  | cons u us ih =>
    intro hs
    rw [List.sorted_cons] at hs
    obtain ⟨hu, hus⟩ := hs
    by_cases h : strLe t u
    · rw [insertTag, if_pos h, List.sorted_cons]
      refine ⟨fun x hx => ?_, List.sorted_cons.mpr ⟨hu, hus⟩⟩
      rcases List.mem_cons.mp hx with rfl | hx
      · exact h
      · exact strLe_trans h (hu x hx)
    · rw [insertTag, if_neg h, List.sorted_cons]
      refine ⟨fun x hx => ?_, ih hus⟩
      rcases mem_insertTag.mp hx with rfl | hx
      · rcases strLe_total x u with h' | h'
        · exact absurd h' h
        · exact h'
      · exact hu x hx

/-- The tag sort produces a `strLe`-sorted list. -/
theorem sorted_sortTags : ∀ l : List String,
    List.Sorted (fun a b => strLe a b = true) (sortTags l)
  | [] => List.sorted_nil
  | _ :: ts => sorted_insertTag (sorted_sortTags ts)

/-- Sorting is invariant under permutation of the input. -/
theorem sortTags_eq_of_perm {l1 l2 : List String} (h : List.Perm l1 l2) :
    sortTags l1 = sortTags l2 := by
  haveI : IsAntisymm String (fun a b => strLe a b = true) :=
    ⟨fun _ _ => strLe_antisymm⟩
  exact List.eq_of_perm_of_sorted
    (((sortTags_perm l1).trans h).trans (sortTags_perm l2).symm)
    (sorted_sortTags l1) (sorted_sortTags l2)

/-- Two lists with the same members have permuted deduplications. -/
theorem dedup_perm_of_mem_iff {l1 l2 : List String}
    (h : ∀ x, x ∈ l1 ↔ x ∈ l2) : List.Perm l1.dedup l2.dedup := by
  rw [List.perm_iff_count]
  intro a
  rw [List.count_eq_of_nodup (List.nodup_dedup l1),
    List.count_eq_of_nodup (List.nodup_dedup l2)]
  simp only [List.mem_dedup, h a]

/-- The canonical tag form depends only on the set of tags. -/
theorem sortDedupTags_eq_of_mem_iff {l1 l2 : List String}
    (h : ∀ x, x ∈ l1 ↔ x ∈ l2) : sortDedupTags l1 = sortDedupTags l2 :=
  sortTags_eq_of_perm (dedup_perm_of_mem_iff h)

/-! ### Helper lemmas: ordering of results -/

/-- Membership in `insertNoteDesc`. -/
theorem mem_insertNoteDesc {x n : Note} : ∀ {l : List Note},
    x ∈ insertNoteDesc n l ↔ x = n ∨ x ∈ l := by
  intro l
  induction l with
  | nil => simp [insertNoteDesc]
  | cons m ms ih =>
    by_cases h : m.updatedAt ≤ n.updatedAt
    · simp [insertNoteDesc, h]
    · simp only [insertNoteDesc, if_neg h, List.mem_cons, ih]
      tauto

/-- Membership in `sortNotesDesc`. -/
theorem mem_sortNotesDesc {x : Note} : ∀ {l : List Note},
    x ∈ sortNotesDesc l ↔ x ∈ l := by
  intro l
  induction l with
  | nil => simp [sortNotesDesc]
  | cons n ns ih =>
    simp only [sortNotesDesc, mem_insertNoteDesc, List.mem_cons, ih]

/-- Inserting into a list sorted by `updatedAt` descending keeps it sorted. -/
theorem sorted_insertNoteDesc {n : Note} : ∀ {l : List Note},
    List.Sorted (fun a b => b.updatedAt ≤ a.updatedAt) l →
    List.Sorted (fun a b => b.updatedAt ≤ a.updatedAt) (insertNoteDesc n l) := by
  intro l
  induction l with
  | nil => intro _; simp [insertNoteDesc]
  | cons m ms ih =>
    intro hs
    rw [List.sorted_cons] at hs
    obtain ⟨hm, hms⟩ := hs
    by_cases h : m.updatedAt ≤ n.updatedAt
    · rw [insertNoteDesc, if_pos h, List.sorted_cons]
      refine ⟨fun x hx => ?_, List.sorted_cons.mpr ⟨hm, hms⟩⟩
      rcases List.mem_cons.mp hx with rfl | hx
      · exact h
      · exact le_trans (hm x hx) h
    · rw [insertNoteDesc, if_neg h, List.sorted_cons]
      refine ⟨fun x hx => ?_, ih hms⟩
      rcases mem_insertNoteDesc.mp hx with rfl | hx
      · exact le_of_not_le h
      · exact hm x hx

/-- The result sort produces a list sorted by `updatedAt` descending. -/
theorem sorted_sortNotesDesc : ∀ l : List Note,
    List.Sorted (fun a b => b.updatedAt ≤ a.updatedAt) (sortNotesDesc l)
  | [] => List.sorted_nil
  | _ :: ns => sorted_insertNoteDesc (sorted_sortNotesDesc ns)

/-! ### Helper lemmas: the `where` filter -/

/-- The empty needle is a substring of anything. -/
theorem hasSub_nil : ∀ hay : List Char, hasSub [] hay = true
  | [] => rfl
  | _ :: bs => by simp [hasSub, leadsWith, hasSub_nil bs]

/-- The empty term matches every string. -/
theorem icontains_empty (s : String) : icontains s "" = true :=
  hasSub_nil (lowerChars s.data)

/-- Characterisation of the term conjunct by the spec's words: term absent,
or term a case-insensitive substring of title or content. -/
theorem termCond_iff (term : Option String) (n : Note) :
    termCond term n = true ↔
      (term = none
        ∨ ∃ t, term = some t
            ∧ (icontains n.title t = true ∨ icontains n.content t = true)) := by
  cases term with
  | none => simp [termCond]
  | some t =>
    by_cases ht : t = ""
    · subst ht
      simp [termCond, icontains_empty]
    · simp [termCond, ht, Bool.or_eq_true]

/-- Characterisation of the tag conjunct by the spec's words: tag filter
absent, or every requested tag present on the note. -/
theorem tagCond_iff (tagFilter : Option (List String)) (n : Note) :
    tagCond tagFilter n = true ↔
      (tagFilter = none
        ∨ ∃ ts, tagFilter = some ts ∧ ∀ x ∈ ts, x ∈ n.tags) := by
  cases tagFilter with
  | none => simp [tagCond]
  | some ts =>
    cases ts with
    | nil => simp [tagCond]
    | cons a l =>
      simp [tagCond, List.all_eq_true]

/-- The `where` object matches precisely the spec's matching predicate. -/
theorem noteMatchesWhere_iff_spec (userId : String) (term : Option String)
    (tagFilter : Option (List String)) (n : Note) :
    noteMatchesWhere userId term tagFilter n = true ↔
      specNoteMatches userId term tagFilter n := by
  unfold noteMatchesWhere specNoteMatches
  rw [Bool.and_eq_true, Bool.and_eq_true, decide_eq_true_eq,
    termCond_iff, tagCond_iff]
  exact and_assoc

/-- Two `all` tests over lists with the same members agree. -/
theorem all_congr_of_mem_iff {l1 l2 : List String} {f : String → Bool}
    (h : ∀ x, x ∈ l1 ↔ x ∈ l2) : l1.all f = l2.all f := by
  rw [Bool.eq_iff_iff, List.all_eq_true, List.all_eq_true]
  constructor
  · intro ha x hx; exact ha x ((h x).mpr hx)
  · intro ha x hx; exact ha x ((h x).mp hx)

/-- The tag conjunct depends only on the set denoted by the filter (with
`none` and `some []` both denoting the empty requirement). -/
theorem tagCond_congr {ts1 ts2 : Option (List String)}
    (h : ∀ x, x ∈ ts1.getD [] ↔ x ∈ ts2.getD []) (n : Note) :
    tagCond ts1 n = tagCond ts2 n := by
  cases ts1 with
  | none =>
    cases ts2 with
    | none => rfl
    | some l2 =>
      cases l2 with
      | nil => simp [tagCond]
      | cons a l2 => exact absurd ((h a).mpr (by simp)) (by simp)
  | some l1 =>
    cases ts2 with
    | none =>
      cases l1 with
      | nil => simp [tagCond]
      | cons a l1 => exact absurd ((h a).mp (by simp)) (by simp)
    | some l2 =>
      cases l1 with
      | nil =>
        cases l2 with
        | nil => rfl
        | cons a l2 => exact absurd ((h a).mpr (by simp)) (by simp)
      | cons a l1 =>
        cases l2 with
        | nil => exact absurd ((h a).mp (by simp)) (by simp)
        | cons b l2 =>
          simp only [tagCond, List.isEmpty_cons, if_neg Bool.false_ne_true]
          exact all_congr_of_mem_iff (by simpa using h)

/-- The whole `where` filter depends only on the set denoted by the tag
filter. -/
theorem noteMatchesWhere_tags_congr {ts1 ts2 : Option (List String)}
    (h : ∀ x, x ∈ ts1.getD [] ↔ x ∈ ts2.getD []) (userId : String)
    (term : Option String) (n : Note) :
    noteMatchesWhere userId term ts1 n = noteMatchesWhere userId term ts2 n := by
  unfold noteMatchesWhere
  rw [tagCond_congr h]

/-! ### Helper lemmas: reductions of the service operations -/

/-- The key derived for a request carries that user's id. -/
theorem searchKeyOf_userId (u : String) (q : QueryNotesDto) :
    (searchKeyOf u q).userId = u := rfl

/-- Reduction of `findAll` on a cache miss. -/
theorem findAll_of_miss {u : String} {q : QueryNotesDto} {s : AppState}
    (h : cacheGet s.cache (searchKeyOf u q) = none) :
    findAll u q s =
      (computeSearch u q s.store,
        { store := s.store
          cache := cacheSet s.cache (searchKeyOf u q)
            (computeSearch u q s.store) }) := by
  simp only [findAll, h]

/-- Reduction of `findAll` on a cache hit. -/
theorem findAll_of_hit {u : String} {q : QueryNotesDto} {s : AppState}
    {r : PaginatedNotes} (h : cacheGet s.cache (searchKeyOf u q) = some r) :
    findAll u q s = (r, s) := by
  simp only [findAll, h]

/-- Reduction of `update` when the access check fails. -/
theorem update_of_error {id u : String} {d : UpdateNoteDto} {now : Nat}
    {s : AppState} {e : NotesError} (h : findOne id u s = .error e) :
    update id u d now s = (.error e, s) := by
  simp only [update, h]

/-- Reduction of `update` when the access check succeeds. -/
theorem update_of_ok {id u : String} {d : UpdateNoteDto} {now : Nat}
    {s : AppState} {n : Note} (h : findOne id u s = .ok n) :
    update id u d now s =
      (.ok (applyUpdate n d now),
        { store := s.store.map fun m =>
            if m.id = id then applyUpdate m d now else m
          cache := invalidateUserNotesCache u s.cache }) := by
  simp only [update, h]

/-- Reduction of `remove` when the access check fails. -/
theorem remove_of_error {id u : String} {s : AppState} {e : NotesError}
    (h : findOne id u s = .error e) : remove id u s = (.error e, s) := by
  simp only [remove, h]

/-- Reduction of `remove` when the access check succeeds. -/
theorem remove_of_ok {id u : String} {s : AppState} {n : Note}
    (h : findOne id u s = .ok n) :
    remove id u s =
      (.ok (),
        { store := s.store.filter fun m => decide (m.id ≠ id)
          cache := invalidateUserNotesCache u s.cache }) := by
  simp only [remove, h]

/-- An `update` that returned a note passed its access check. -/
theorem update_ok_inv {id u : String} {d : UpdateNoteDto} {now : Nat}
    {s : AppState} {n : Note} (h : (update id u d now s).1 = .ok n) :
    ∃ m, findOne id u s = .ok m := by
  cases h' : findOne id u s with
  | error e => rw [update_of_error h'] at h; cases h
  | ok m => exact ⟨m, rfl⟩

/-- A `remove` that succeeded passed its access check. -/
theorem remove_ok_inv {id u : String} {s : AppState}
    (h : (remove id u s).1 = .ok ()) : ∃ m, findOne id u s = .ok m := by
  cases h' : findOne id u s with
  | error e => rw [remove_of_error h'] at h; cases h
  | ok m => exact ⟨m, rfl⟩

/-- The cache-miss computation depends on the query only through the term,
the page, the limit, and the set of requested tags. -/
theorem computeSearch_congr (u : String) {q1 q2 : QueryNotesDto}
    (st : List Note) (hs : q1.search = q2.search) (hp : q1.page = q2.page)
    (hl : q1.limit = q2.limit)
    (ht : ∀ x, x ∈ q1.tags.getD [] ↔ x ∈ q2.tags.getD []) :
    computeSearch u q1 st = computeSearch u q2 st := by
  have hf : noteMatchesWhere u q2.search q1.tags
      = noteMatchesWhere u q2.search q2.tags :=
    funext fun n => noteMatchesWhere_tags_congr ht u q2.search n
  simp only [computeSearch, hs, hp, hl, hf]

/-! ### Claims -/

/-- C2: repeating an identical `search` with no intervening mutation returns
the identical page on the second call: the entry cached by the first call is
hit and returned verbatim without re-querying the store, and the state is
unchanged by the repeat. -/
theorem search_repeat_cache_hit (u : String) (q : QueryNotesDto)
    (s : AppState) :
    (findAll u q (findAll u q s).2).1 = (findAll u q s).1
  ∧ (findAll u q (findAll u q s).2).2 = (findAll u q s).2
  ∧ cacheGet (findAll u q s).2.cache (searchKeyOf u q)
      = some (findAll u q s).1 := by
  cases h : cacheGet s.cache (searchKeyOf u q) with
  | none =>
    rw [findAll_of_miss h]
    have h2 : cacheGet
        (cacheSet s.cache (searchKeyOf u q) (computeSearch u q s.store))
        (searchKeyOf u q) = some (computeSearch u q s.store) :=
      cacheGet_set_self _ _ _
    exact ⟨congrArg Prod.fst (findAll_of_hit h2),
      congrArg Prod.snd (findAll_of_hit h2), h2⟩
  | some r =>
    rw [findAll_of_hit h]
    exact ⟨congrArg Prod.fst (findAll_of_hit h),
      congrArg Prod.snd (findAll_of_hit h), h⟩

/-- C7: each mutation performs the store mutation and only on its success
invalidates the user's cache entries; when the access check fails the whole
state — in particular the cache — is unchanged. -/
theorem mutation_invalidates_only_on_success (s : AppState) (u id : String) :
    (∀ d newId now,
        (create u d newId now s).2.cache = invalidateUserNotesCache u s.cache
      ∧ (create u d newId now s).2.store
          = s.store ++ [(create u d newId now s).1])
  ∧ (∀ d now n, (update id u d now s).1 = .ok n →
      (update id u d now s).2.cache = invalidateUserNotesCache u s.cache)
  ∧ (∀ d now e, (update id u d now s).1 = .error e →
      (update id u d now s).2 = s)
  ∧ ((remove id u s).1 = .ok () →
      (remove id u s).2.cache = invalidateUserNotesCache u s.cache)
  ∧ (∀ e, (remove id u s).1 = .error e → (remove id u s).2 = s) := by
  refine ⟨fun d newId now => ⟨rfl, rfl⟩, ?_, ?_, ?_, ?_⟩
  · intro d now n h
    obtain ⟨m, hm⟩ := update_ok_inv h
    rw [update_of_ok hm]
  · intro d now e h
    cases h' : findOne id u s with
    | error e' => rw [update_of_error h']
    | ok m => rw [update_of_ok h'] at h; cases h
  · intro h
    obtain ⟨m, hm⟩ := remove_ok_inv h
    rw [remove_of_ok hm]
  · intro e h
    cases h' : findOne id u s with
    | error e' => rw [remove_of_error h']
    | ok m => rw [remove_of_ok h'] at h; cases h

/-- C7 witness: at a concrete one-note state, a successful update
invalidates the user's cache and a failed update (foreign owner) leaves the
state untouched. -/
theorem mutation_invalidates_only_on_success_witness :
    ((update "n1" "u1" ⟨some "New", none, none⟩ 9
        ⟨[noteWork], []⟩).1 = .ok (applyUpdate noteWork ⟨some "New", none, none⟩ 9))
  ∧ (update "n1" "u1" ⟨some "New", none, none⟩ 9 ⟨[noteWork], []⟩).2.cache
      = invalidateUserNotesCache "u1" ([] : List (SearchKey × PaginatedNotes)) := by
  constructor
  · rfl
  · exact (mutation_invalidates_only_on_success ⟨[noteWork], []⟩ "u1" "n1").2.1
      ⟨some "New", none, none⟩ 9 (applyUpdate noteWork ⟨some "New", none, none⟩ 9) rfl

/-- C8: an unknown id yields not-found; an existing note owned by a
different user yields forbidden, a distinct error; an owned note is
returned; and `update`/`remove` begin with the same access check,
propagating its error. -/
theorem findOne_access_control (s : AppState) (id u : String) :
    (findNote id s.store = none → findOne id u s = .error .notFound)
  ∧ (∀ n, findNote id s.store = some n → n.userId ≠ u →
      findOne id u s = .error .forbidden)
  ∧ (∀ n, findNote id s.store = some n → n.userId = u →
      findOne id u s = .ok n)
  ∧ NotesError.forbidden ≠ NotesError.notFound
  ∧ (∀ d now e, findOne id u s = .error e → (update id u d now s).1 = .error e)
  ∧ (∀ e, findOne id u s = .error e → (remove id u s).1 = .error e) := by
  refine ⟨?_, ?_, ?_, by decide, ?_, ?_⟩
  · intro h; simp only [findOne, h]
  · intro n h hne; simp only [findOne, h, if_neg hne]
  · intro n h he; simp only [findOne, h, if_pos he]
  · intro d now e h; rw [update_of_error h]
  · intro e h; rw [remove_of_error h]

/-- C8 witness: at a concrete two-note store, a foreign note yields
forbidden, an unknown id yields not-found, and an owned note is returned. -/
theorem findOne_access_control_witness :
    findOne "n3" "u1" ⟨[noteWork, noteOther], []⟩ = .error .forbidden
  ∧ findOne "zzz" "u1" ⟨[noteWork, noteOther], []⟩ = .error .notFound
  ∧ findOne "n1" "u1" ⟨[noteWork, noteOther], []⟩ = .ok noteWork := by
  refine ⟨?_, ?_, ?_⟩
  · exact (findOne_access_control ⟨[noteWork, noteOther], []⟩ "n3" "u1").2.1
      noteOther rfl (by decide)
  · exact (findOne_access_control ⟨[noteWork, noteOther], []⟩ "zzz" "u1").1 rfl
  · exact (findOne_access_control ⟨[noteWork, noteOther], []⟩ "n1" "u1").2.2.1
      noteWork rfl rfl

/-- C10: updating an owned note changes exactly the payload fields plus the
`updatedAt` stamp: omitted fields keep their values, supplied fields take
the supplied values, the id, owner and `createdAt` never change, and every
other row is untouched. -/
theorem update_frame (s : AppState) (id u : String) (d : UpdateNoteDto)
    (now : Nat) (n : Note) (h : findOne id u s = .ok n) :
    ∃ n', (update id u d now s).1 = .ok n'
      ∧ n'.id = n.id ∧ n'.userId = n.userId ∧ n'.createdAt = n.createdAt
      ∧ (d.title = none → n'.title = n.title)
      ∧ (∀ t, d.title = some t → n'.title = t)
      ∧ (d.content = none → n'.content = n.content)
      ∧ (∀ t, d.content = some t → n'.content = t)
      ∧ (d.tags = none → n'.tags = n.tags)
      ∧ (∀ t, d.tags = some t → n'.tags = t)
      ∧ n'.updatedAt = now
      ∧ (∀ m ∈ s.store, m.id ≠ id → m ∈ (update id u d now s).2.store) := by
  refine ⟨applyUpdate n d now, by rw [update_of_ok h], rfl, rfl, rfl,
    ?_, ?_, ?_, ?_, ?_, ?_, rfl, ?_⟩
  · intro ht; simp [applyUpdate, ht]
  · intro t ht; simp [applyUpdate, ht]
  · intro hc; simp [applyUpdate, hc]
  · intro t hc; simp [applyUpdate, hc]
  · intro hg; simp [applyUpdate, hg]
  · intro t hg; simp [applyUpdate, hg]
  · intro m hm hne
    rw [update_of_ok h]
    have : (if m.id = id then applyUpdate m d now else m) = m := if_neg hne
    exact this ▸ List.mem_map_of_mem _ hm

/-- C10 witness: a concrete update supplying only a new title keeps content
and tags, stamps `updatedAt`, and leaves the other user's row in place. -/
theorem update_frame_witness :
    findOne "n1" "u1" ⟨[noteWork, noteOther], []⟩ = .ok noteWork
  ∧ ∃ n', (update "n1" "u1" ⟨some "New", none, none⟩ 9
        ⟨[noteWork, noteOther], []⟩).1 = .ok n'
      ∧ n'.id = noteWork.id ∧ n'.userId = noteWork.userId
      ∧ n'.createdAt = noteWork.createdAt
      ∧ ((⟨some "New", none, none⟩ : UpdateNoteDto).title = none →
          n'.title = noteWork.title)
      ∧ (∀ t, (⟨some "New", none, none⟩ : UpdateNoteDto).title = some t →
          n'.title = t)
      ∧ ((⟨some "New", none, none⟩ : UpdateNoteDto).content = none →
          n'.content = noteWork.content)
      ∧ (∀ t, (⟨some "New", none, none⟩ : UpdateNoteDto).content = some t →
          n'.content = t)
      ∧ ((⟨some "New", none, none⟩ : UpdateNoteDto).tags = none →
          n'.tags = noteWork.tags)
      ∧ (∀ t, (⟨some "New", none, none⟩ : UpdateNoteDto).tags = some t →
          n'.tags = t)
      ∧ n'.updatedAt = 9
      ∧ (∀ m ∈ [noteWork, noteOther], m.id ≠ "n1" →
          m ∈ (update "n1" "u1" ⟨some "New", none, none⟩ 9
            ⟨[noteWork, noteOther], []⟩).2.store) :=
  ⟨rfl, update_frame ⟨[noteWork, noteOther], []⟩ "n1" "u1"
    ⟨some "New", none, none⟩ 9 noteWork rfl⟩

/-- C1: every successful mutation (create, update, delete) for a user
removes all of that user's cached search entries, so a search issued right
after the mutation can never be served a page cached before it: every key
derived for the user is absent, and the search is computed fresh from the
mutated store. -/
theorem mutations_bust_user_cache (s : AppState) (u : String) :
    (∀ d newId now (k : SearchKey), k.userId = u →
        cacheGet (create u d newId now s).2.cache k = none)
  ∧ (∀ id d now n, (update id u d now s).1 = .ok n →
        ∀ (k : SearchKey), k.userId = u →
          cacheGet (update id u d now s).2.cache k = none)
  ∧ (∀ id, (remove id u s).1 = .ok () →
        ∀ (k : SearchKey), k.userId = u →
          cacheGet (remove id u s).2.cache k = none)
  ∧ (∀ d newId now q, (findAll u q (create u d newId now s).2).1
        = computeSearch u q (create u d newId now s).2.store)
  ∧ (∀ id d now n, (update id u d now s).1 = .ok n →
        ∀ q, (findAll u q (update id u d now s).2).1
          = computeSearch u q (update id u d now s).2.store)
  ∧ (∀ id, (remove id u s).1 = .ok () →
        ∀ q, (findAll u q (remove id u s).2).1
          = computeSearch u q (remove id u s).2.store) := by
  refine ⟨?_, ?_, ?_, ?_, ?_, ?_⟩
  · intro d newId now k hk
    exact cacheGet_invalidate hk s.cache
  · intro id d now n h k hk
    obtain ⟨m, hm⟩ := update_ok_inv h
    rw [update_of_ok hm]
    exact cacheGet_invalidate hk s.cache
  · intro id h k hk
    obtain ⟨m, hm⟩ := remove_ok_inv h
    rw [remove_of_ok hm]
    exact cacheGet_invalidate hk s.cache
  · intro d newId now q
    have hmiss : cacheGet (create u d newId now s).2.cache
        (searchKeyOf u q) = none :=
      cacheGet_invalidate (searchKeyOf_userId u q) s.cache
    rw [findAll_of_miss hmiss]
  · intro id d now n h q
    obtain ⟨m, hm⟩ := update_ok_inv h
    have hmiss : cacheGet (update id u d now s).2.cache
        (searchKeyOf u q) = none := by
      rw [update_of_ok hm]
      exact cacheGet_invalidate (searchKeyOf_userId u q) s.cache
    rw [findAll_of_miss hmiss]
  · intro id h q
    obtain ⟨m, hm⟩ := remove_ok_inv h
    have hmiss : cacheGet (remove id u s).2.cache
        (searchKeyOf u q) = none := by
      rw [remove_of_ok hm]
      exact cacheGet_invalidate (searchKeyOf_userId u q) s.cache
    rw [findAll_of_miss hmiss]

/-- C1 witness: with a stale page cached under the user's own search key, a
create mutation leaves no entry for that key. -/
theorem mutations_bust_user_cache_witness :
    (searchKeyOf "u1" emptyQuery).userId = "u1"
  ∧ cacheGet (create "u1" ⟨"T", "C", none⟩ "id1" 3
      ⟨[], [(searchKeyOf "u1" emptyQuery, stalePage)]⟩).2.cache
      (searchKeyOf "u1" emptyQuery) = none :=
  ⟨rfl,
    (mutations_bust_user_cache
      ⟨[], [(searchKeyOf "u1" emptyQuery, stalePage)]⟩ "u1").1
      ⟨"T", "C", none⟩ "id1" 3 (searchKeyOf "u1" emptyQuery) rfl⟩

/-- C4: the `where` filter of the search coincides with the spec's matching
predicate — owned by the user, term absent or a case-insensitive substring
of title or content, and every requested tag present (conjunctive tag
filter); on a cache miss the returned total counts exactly the matching
notes and every returned note is a matching store note.  In particular a
note tagged `{work}` fails a `{work, urgent}` filter while a note tagged
`{work, urgent, extra}` passes it. -/
theorem search_matches_spec (u : String) (q : QueryNotesDto) (s : AppState)
    (hmiss : cacheGet s.cache (searchKeyOf u q) = none) :
    (∀ v term tf n, noteMatchesWhere v term tf n = true ↔
        specNoteMatches v term tf n)
  ∧ (findAll u q s).1.total
      = (s.store.filter (noteMatchesWhere u q.search q.tags)).length
  ∧ (∀ n ∈ (findAll u q s).1.notes,
      n ∈ s.store ∧ specNoteMatches u q.search q.tags n)
  ∧ noteMatchesWhere "u1" none (some ["work", "urgent"]) noteWork = false
  ∧ noteMatchesWhere "u1" none (some ["work", "urgent"]) noteWUE = true := by
  refine ⟨noteMatchesWhere_iff_spec, ?_, ?_, by decide, by decide⟩
  · rw [findAll_of_miss hmiss]; exact rfl
  · intro n hn
    rw [findAll_of_miss hmiss] at hn
    have h1 : n ∈ sortNotesDesc
        (s.store.filter (noteMatchesWhere u q.search q.tags)) :=
      ((List.take_sublist _ _).trans (List.drop_sublist _ _)).subset hn
    have h2 := List.mem_filter.mp (mem_sortNotesDesc.mp h1)
    exact ⟨h2.1, (noteMatchesWhere_iff_spec u q.search q.tags n).mp h2.2⟩

/-- C4 witness: at a concrete store and a `{work, urgent}` filter on an
empty cache, the returned total counts exactly the matching notes. -/
theorem search_matches_spec_witness :
    cacheGet ([] : List (SearchKey × PaginatedNotes))
      (searchKeyOf "u1" ⟨none, some ["work", "urgent"], none, none⟩) = none
  ∧ (findAll "u1" ⟨none, some ["work", "urgent"], none, none⟩
      ⟨[noteWork, noteWUE, noteOther], []⟩).1.total
      = (([noteWork, noteWUE, noteOther] : List Note).filter
          (noteMatchesWhere "u1" none (some ["work", "urgent"]))).length :=
  ⟨rfl,
    (search_matches_spec "u1" ⟨none, some ["work", "urgent"], none, none⟩
      ⟨[noteWork, noteWUE, noteOther], []⟩ rfl).2.1⟩

/-- C5 counterexample: two notes with equal `updatedAt`, stored with ids in
descending order, are returned in store order `["b", "a"]` — not in the
ascending id order `["a", "b"]` the claim requires for ties. -/
theorem search_order_no_id_tiebreak_cex :
    (findAll "u1" emptyQuery ⟨[tieNoteB, tieNoteA], []⟩).1.notes.map Note.id
      = ["b", "a"]
  ∧ tieNoteB.updatedAt = tieNoteA.updatedAt
  ∧ (["b", "a"] : List String) ≠ ["a", "b"] :=
  ⟨rfl, rfl, by decide⟩

/-- C5 amended: on a cache miss the returned notes are ordered by
`updatedAt` descending; the query specifies no tie-break, so notes with
equal `updatedAt` keep their store order rather than ascending id order. -/
theorem search_sorted_by_updatedAt_desc (u : String) (q : QueryNotesDto)
    (s : AppState) (hmiss : cacheGet s.cache (searchKeyOf u q) = none) :
    List.Sorted (fun a b => b.updatedAt ≤ a.updatedAt)
      (findAll u q s).1.notes := by
  rw [findAll_of_miss hmiss]
  exact List.Pairwise.sublist
    ((List.take_sublist _ _).trans (List.drop_sublist _ _))
    (sorted_sortNotesDesc _)

/-- C5 amended witness: the concrete tie store yields a descending-sorted
page. -/
theorem search_sorted_by_updatedAt_desc_witness :
    cacheGet ([] : List (SearchKey × PaginatedNotes))
      (searchKeyOf "u1" emptyQuery) = none
  ∧ List.Sorted (fun a b => b.updatedAt ≤ a.updatedAt)
      (findAll "u1" emptyQuery ⟨[tieNoteB, tieNoteA], []⟩).1.notes :=
  ⟨rfl, search_sorted_by_updatedAt_desc "u1" emptyQuery
    ⟨[tieNoteB, tieNoteA], []⟩ rfl⟩

/-- C6: on a cache miss, `total` counts all matching notes independent of
pagination, `notes` is exactly the slice `[(page-1)*limit, page*limit)` of
the ordered matching list, and `totalPages` is the ceiling of
`total / limit` — 0 when `total` is 0. -/
theorem search_pagination_contract (u : String) (q : QueryNotesDto)
    (s : AppState) (hmiss : cacheGet s.cache (searchKeyOf u q) = none) :
    (findAll u q s).1.total
      = (s.store.filter (noteMatchesWhere u q.search q.tags)).length
  ∧ (findAll u q s).1.notes
      = ((sortNotesDesc
            (s.store.filter (noteMatchesWhere u q.search q.tags))).drop
          ((q.page.getD 1 - 1) * q.limit.getD 10)).take (q.limit.getD 10)
  ∧ (findAll u q s).1.totalPages
      = (findAll u q s).1.total ⌈/⌉ q.limit.getD 10
  ∧ ((findAll u q s).1.total = 0 → (findAll u q s).1.totalPages = 0) := by
  rw [findAll_of_miss hmiss]
  refine ⟨rfl, rfl, (Nat.ceilDiv_eq_add_pred_div _ _).symm, ?_⟩
  · intro h0
    have h0' : (s.store.filter (noteMatchesWhere u q.search q.tags)).length
        = 0 := h0
    show ((s.store.filter (noteMatchesWhere u q.search q.tags)).length
        + q.limit.getD 10 - 1) / q.limit.getD 10 = 0
    rw [h0']
    rcases Nat.eq_zero_or_pos (q.limit.getD 10) with hL | hL
    · simp [hL]
    · exact Nat.div_eq_of_lt (by omega)

/-- C6 witness: the spec's 25-note example, page 3 of size 10. -/
theorem search_pagination_contract_witness :
    cacheGet ([] : List (SearchKey × PaginatedNotes))
      (searchKeyOf "u1" ⟨none, none, some 3, some 10⟩) = none
  ∧ (findAll "u1" ⟨none, none, some 3, some 10⟩ ⟨store25, []⟩).1.totalPages
      = (findAll "u1" ⟨none, none, some 3, some 10⟩ ⟨store25, []⟩).1.total
          ⌈/⌉ 10 :=
  ⟨rfl,
    (search_pagination_contract "u1" ⟨none, none, some 3, some 10⟩
      ⟨store25, []⟩ rfl).2.2.1⟩

/-- Pagination example from the spec: with 25 matching notes and page size
10, pages 1 and 2 hold 10 notes, page 3 holds 5, page 4 holds 0, and
`totalPages` is 3. -/
theorem pagination_example_25notes :
    (findAll "u1" ⟨none, none, some 1, some 10⟩ ⟨store25, []⟩).1.notes.length
      = 10
  ∧ (findAll "u1" ⟨none, none, some 2, some 10⟩ ⟨store25, []⟩).1.notes.length
      = 10
  ∧ (findAll "u1" ⟨none, none, some 3, some 10⟩ ⟨store25, []⟩).1.notes.length
      = 5
  ∧ (findAll "u1" ⟨none, none, some 4, some 10⟩ ⟨store25, []⟩).1.notes.length
      = 0
  ∧ (findAll "u1" ⟨none, none, some 4, some 10⟩ ⟨store25, []⟩).1.totalPages
      = 3 :=
  ⟨rfl, rfl, rfl, rfl, rfl⟩

/-- C3 counterexample: the claimed clamp of the page size to 100 does not
exist.  `limit = 101` passes validation (`@Min(1)` only), and over 101
matching notes page 1 returns all 101 notes — a clamped page size would
return at most `clamp(101, 1, 100) = 100`. -/
theorem search_no_limit_clamp_cex :
    validQueryNotes ⟨none, none, some 1, some 101⟩ = true
  ∧ (findAll "u1" ⟨none, none, some 1, some 101⟩
      ⟨wideStore, []⟩).1.notes.length = 101
  ∧ (findAll "u1" ⟨none, none, some 1, some 101⟩ ⟨wideStore, []⟩).1.limit
      = 101
  ∧ min (max 101 1) 100 = 100
  ∧ (101 : Nat) ≠ 100 :=
  ⟨rfl, rfl, rfl, rfl, by decide⟩

/-- C3 amended: for a validated query the effective page equals the given
page (so also `max(1, page)`) and the effective page size equals the given
page size — validated to be at least 1 but NOT clamped above — while the
tag list is deduplicated and sorted during key derivation, so two queries
over the same tag set (permutations or duplications) derive the same cache
key and the whole search behaves identically on them. -/
theorem search_normalization (u : String) (q1 q2 : QueryNotesDto)
    (s : AppState) (hs : q1.search = q2.search) (hp : q1.page = q2.page)
    (hl : q1.limit = q2.limit)
    (ht : ∀ x, x ∈ q1.tags.getD [] ↔ x ∈ q2.tags.getD [])
    (hv : validQueryNotes q1 = true) :
    searchKeyOf u q1 = searchKeyOf u q2
  ∧ findAll u q1 s = findAll u q2 s
  ∧ (computeSearch u q1 s.store).page = max 1 (q1.page.getD 1)
  ∧ (computeSearch u q1 s.store).limit = q1.limit.getD 10 := by
  have hkey : searchKeyOf u q1 = searchKeyOf u q2 := by
    unfold searchKeyOf generateNotesSearchKey
    rw [hs, hp, hl, sortDedupTags_eq_of_mem_iff ht]
  have hcs : computeSearch u q1 s.store = computeSearch u q2 s.store :=
    computeSearch_congr u s.store hs hp hl ht
  refine ⟨hkey, ?_, ?_, rfl⟩
  · simp only [findAll, hkey, hcs]
  · have h1 : 1 ≤ q1.page.getD 1 := by
      have hv' := hv
      unfold validQueryNotes at hv'
      rw [Bool.and_eq_true, decide_eq_true_eq, decide_eq_true_eq] at hv'
      exact hv'.1
    show q1.page.getD 1 = max 1 (q1.page.getD 1)
    omega

/-- C3 amended witness: the tag lists `["b", "a", "a"]` and `["a", "b"]`
denote the same set, so a concrete search treats them identically. -/
theorem search_normalization_witness :
    (∀ x : String, x ∈ ["b", "a", "a"] ↔ x ∈ ["a", "b"])
  ∧ validQueryNotes ⟨some "x", some ["b", "a", "a"], some 2, some 5⟩ = true
  ∧ searchKeyOf "u1" ⟨some "x", some ["b", "a", "a"], some 2, some 5⟩
      = searchKeyOf "u1" ⟨some "x", some ["a", "b"], some 2, some 5⟩
  ∧ findAll "u1" ⟨some "x", some ["b", "a", "a"], some 2, some 5⟩
        ⟨[noteWork], []⟩
      = findAll "u1" ⟨some "x", some ["a", "b"], some 2, some 5⟩
        ⟨[noteWork], []⟩ := by
  have ht : ∀ x : String, x ∈ ["b", "a", "a"] ↔ x ∈ ["a", "b"] := by
    intro x
    simp only [List.mem_cons, List.not_mem_nil, or_false]
    tauto
  have h := search_normalization "u1"
    ⟨some "x", some ["b", "a", "a"], some 2, some 5⟩
    ⟨some "x", some ["a", "b"], some 2, some 5⟩ ⟨[noteWork], []⟩
    rfl rfl rfl ht rfl
  exact ⟨ht, rfl, h.1, h.2.1⟩

/-- C9 counterexample: `content` also carries `@IsNotEmpty()`, so a create
with empty content is rejected with a validation error (state unchanged) —
it is not accepted and stored as the claim states. -/
theorem create_empty_content_rejected_cex :
    (createEndpoint "u1" ⟨"title", "", none⟩ "n9" 0 ⟨[], []⟩).1
      = Except.error NotesError.validation
  ∧ (createEndpoint "u1" ⟨"title", "", none⟩ "n9" 0 ⟨[], []⟩).2
      = (⟨[], []⟩ : AppState) :=
  ⟨rfl, rfl⟩

/-- C9 amended: create validation requires both title and content to be
non-empty: an empty title or an empty content is malformed input rejected
with a validation error, leaving the state unchanged; with both non-empty
the note is created and stored with exactly the given fields. -/
theorem create_validation (d : CreateNoteDto) (u newId : String) (now : Nat)
    (s : AppState) :
    (validateCreateNote d = true ↔ d.title ≠ "" ∧ d.content ≠ "")
  ∧ (d.title = "" ∨ d.content = "" →
      (createEndpoint u d newId now s).1 = .error .validation
      ∧ (createEndpoint u d newId now s).2 = s)
  ∧ (d.title ≠ "" → d.content ≠ "" →
      ∃ n, (createEndpoint u d newId now s).1 = .ok n
        ∧ n.title = d.title ∧ n.content = d.content
        ∧ n.tags = d.tags.getD [] ∧ n.userId = u
        ∧ n ∈ (createEndpoint u d newId now s).2.store) := by
  have hval : validateCreateNote d = true ↔ d.title ≠ "" ∧ d.content ≠ "" := by
    unfold validateCreateNote
    rw [Bool.and_eq_true, decide_eq_true_eq, decide_eq_true_eq]
  refine ⟨hval, ?_, ?_⟩
  · intro hbad
    have hv : validateCreateNote d = false := by
      cases hv' : validateCreateNote d
      · rfl
      · exfalso
        rcases hval.mp hv' with ⟨h1, h2⟩
        rcases hbad with hb | hb
        · exact h1 hb
        · exact h2 hb
    unfold createEndpoint
    rw [hv]
    exact ⟨rfl, rfl⟩
  · intro h1 h2
    have hv : validateCreateNote d = true := hval.mpr ⟨h1, h2⟩
    refine ⟨(create u d newId now s).1, ?_, rfl, rfl, rfl, rfl, ?_⟩
    · unfold createEndpoint
      rw [hv]
      exact rfl
    · unfold createEndpoint
      rw [hv]
      simp [create]

/-- C9 amended witness: a concrete valid body is created and stored; its
fields are exactly the given ones. -/
theorem create_validation_witness :
    ("T" : String) ≠ "" ∧ ("C" : String) ≠ ""
  ∧ (∃ n, (createEndpoint "u1" ⟨"T", "C", none⟩ "n7" 4 ⟨[], []⟩).1 = .ok n
      ∧ n.title = "T" ∧ n.content = "C"
      ∧ n.tags = (none : Option (List String)).getD [] ∧ n.userId = "u1"
      ∧ n ∈ (createEndpoint "u1" ⟨"T", "C", none⟩ "n7" 4 ⟨[], []⟩).2.store) :=
  ⟨by decide, by decide,
    (create_validation ⟨"T", "C", none⟩ "u1" "n7" 4 ⟨[], []⟩).2.2
      (by decide) (by decide)⟩

end QuickNotes
